import Mathlib

/-!
# Verification of the floe upload gateway core

Shallow embedding of the upload/finalize/GC/read-proxy core of the floe
repository, together with theorems settling the specification claims.

Strings that undergo character-level computation (hash digests, HTTP Range
headers) are modelled as lists of Unicode code points (`List Nat`); all other
strings stay `String`.  Machine integers are modelled as `Nat`/`Int` (the
quantities involved — byte counts, timestamps — stay far below 2^53, where
JavaScript numbers are exact).
-/

deriving instance DecidableEq for Except

namespace Floe

/-- Code points of a Lean string literal (used to write concrete headers and
digests in theorems). -/
def codes (s : String) : List Nat := s.data.map Char.toNat

/-- `String.prototype.toLowerCase` on one code point, restricted to ASCII
letters (hash digests and range headers are ASCII). -/
def jsLowerCode (n : Nat) : Nat := if 65 ≤ n ∧ n ≤ 90 then n + 32 else n

/-- `String.prototype.toUpperCase` on one code point, restricted to ASCII. -/
def jsUpperCode (n : Nat) : Nat := if 97 ≤ n ∧ n ≤ 122 then n - 32 else n

/-- `expectedHash.toLowerCase()` over code points. -/
def jsToLower (l : List Nat) : List Nat := l.map jsLowerCode

/-- Uppercasing over code points. -/
def jsToUpper (l : List Nat) : List Nat := l.map jsUpperCode

/-! ## Disk chunk store (`src/store/disk.chunk.store.ts`)

`writeChunk(uploadId, index, stream, expectedHash, expectedSize, isLastChunk)`
is modelled as a pure function on the filesystem state of one
`(uploadId, index)` slot.  The SHA-256 hasher from node's `crypto` module is
external library code, so it enters the model as an abstract digest function
`hashFn : List Nat → List Nat` (bytes to lowercase-hex code points). -/

/-- `STALE_TMP_MS = 10 * 60 * 1000`. -/
def STALE_TMP_MS : Nat := 10 * 60 * 1000

/-- Error identities thrown by the chunk store (plus `other` for any
infrastructure error surfacing through it). -/
inductive ChunkErr where
  | hashMismatch
  | chunkTooLarge
  | chunkSizeMismatch
  | invalidLastChunkSize
  | chunkInProgress
  | tempCreateFailed
  | other (msg : String)
deriving DecidableEq

/-- On-disk state of one `(uploadId, index)` chunk slot:
content of the final file `tmp/<uploadId>/<index>` when it exists,
mtime of `<index>.tmp` when it exists, and the chunk directory's mtime. -/
structure ChunkFs where
  final : Option (List Nat)
  tmp : Option Nat
  dirMtime : Nat
deriving DecidableEq

/-- Result of a `writeChunk` call: resulting filesystem state, the thrown
error (`none` = success), and whether the input stream was consumed. -/
structure WriteChunkOut where
  fs : ChunkFs
  err : Option ChunkErr
  streamConsumed : Bool
deriving DecidableEq

/-- The body of `writeChunk` after the temp file has been created with
exclusive semantics: pipeline through the validating transform, digest
comparison, size policy, atomic rename; on any error the temp file is
removed (`catch` block).  The validator aborts with `CHUNK_TOO_LARGE` as soon
as cumulative bytes exceed `expectedSize`, so on completion exactly
`body.length` bytes are in the temp file. -/
def writeChunkBody (hashFn : List Nat → List Nat) (now : Nat) (fs : ChunkFs)
    (body : List Nat) (expectedHash : List Nat) (expectedSize : Nat)
    (isLastChunk : Bool) : WriteChunkOut :=
  if body.length > expectedSize then
    { fs := { fs with tmp := none }, err := some .chunkTooLarge, streamConsumed := true }
  else if hashFn body ≠ jsToLower expectedHash then
    { fs := { fs with tmp := none }, err := some .hashMismatch, streamConsumed := true }
  else if isLastChunk then
    if body.length = 0 ∨ body.length > expectedSize then
      { fs := { fs with tmp := none }, err := some .invalidLastChunkSize, streamConsumed := true }
    else
      { fs := { final := some body, tmp := none, dirMtime := now },
        err := none, streamConsumed := true }
  else if body.length ≠ expectedSize then
    { fs := { fs with tmp := none }, err := some .chunkSizeMismatch, streamConsumed := true }
  else
    { fs := { final := some body, tmp := none, dirMtime := now },
      err := none, streamConsumed := true }

/-- `DiskChunkStore.writeChunk`.  Steps: ensure directory; return success if
the final path already exists (idempotent replay); open `<index>.tmp` with
exclusive-create — on `EEXIST` recheck the final path, reclaim the temp file
once when it is older than `STALE_TMP_MS`, otherwise fail
`CHUNK_IN_PROGRESS`; then run the streaming body. -/
def writeChunk (hashFn : List Nat → List Nat) (now : Nat) (fs : ChunkFs)
    (body : List Nat) (expectedHash : List Nat) (expectedSize : Nat)
    (isLastChunk : Bool) : WriteChunkOut :=
  if fs.final.isSome then
    { fs := fs, err := none, streamConsumed := false }
  else
    match fs.tmp with
    | none =>
        writeChunkBody hashFn now fs body expectedHash expectedSize isLastChunk
    | some mtime =>
        if fs.final.isSome then
          { fs := fs, err := none, streamConsumed := false }
        else if now - mtime > STALE_TMP_MS then
          writeChunkBody hashFn now { fs with tmp := none } body expectedHash
            expectedSize isLastChunk
        else
          { fs := fs, err := some .chunkInProgress, streamConsumed := false }

/-! ## Chunk upload route (`src/routes/uploads.routes.ts`, chunk handler) -/

/-- Upload session record (the fields the chunk and finalize paths read). -/
structure SessionRec where
  uploadId : String
  sizeBytes : Nat
  chunkSize : Nat
  totalChunks : Nat
  resolvedEpochs : Nat
  contentType : Option String
deriving DecidableEq

/-- Per-request `expectedSize` computed by the chunk handler:
`chunkSize` for a non-last index, `sizeBytes − chunkSize·(totalChunks−1)`
for the last index. -/
def chunkExpectedSize (s : SessionRec) (idx : Nat) : Nat :=
  if idx = s.totalChunks - 1 then s.sizeBytes - s.chunkSize * (s.totalChunks - 1)
  else s.chunkSize

/-- HTTP reply of the chunk route: status code, canonical error code
(`"OK"` on success), and the `retryable` flag of the error envelope. -/
structure ChunkReply where
  status : Nat
  code : String
  retryable : Option Bool
deriving DecidableEq

/-- The chunk handler's `catch` mapping of store errors to HTTP replies:
`CHUNK_IN_PROGRESS` → 409 retryable; the four validation failures → 400
`INVALID_CHUNK` non-retryable; anything else → 500 `CHUNK_UPLOAD_FAILED`
retryable. -/
def chunkErrorReply (e : ChunkErr) : ChunkReply :=
  if e = .chunkInProgress then
    { status := 409, code := "CHUNK_IN_PROGRESS", retryable := some true }
  else if e = .hashMismatch ∨ e = .chunkTooLarge ∨ e = .chunkSizeMismatch ∨
      e = .invalidLastChunkSize then
    { status := 400, code := "INVALID_CHUNK", retryable := some false }
  else
    { status := 500, code := "CHUNK_UPLOAD_FAILED", retryable := some true }

/-- `SADD` of the received-chunks set. -/
def saddIndex (received : List Nat) (idx : Nat) : List Nat :=
  if idx ∈ received then received else idx :: received

/-- Outcome of one chunk `PUT` after request validation: filesystem state,
received-chunks set, and HTTP reply. -/
structure ChunkPutOut where
  fs : ChunkFs
  received : List Nat
  reply : ChunkReply
deriving DecidableEq

/-- Core of `PUT /v1/uploads/:uploadId/chunk/:index` after the session /
index / header validations: compute `expectedSize` and `isLastChunk`,
delegate to the store, on success `SADD` the index into the received set and
answer `{ok, chunkIndex}` (modelled as status 200 `"OK"`), on error answer
via the `catch` mapping. -/
def chunkPutCore (hashFn : List Nat → List Nat) (now : Nat) (s : SessionRec)
    (fs : ChunkFs) (received : List Nat) (idx : Nat) (body : List Nat)
    (expectedHash : List Nat) : ChunkPutOut :=
  let isLastChunk : Bool := decide (idx = s.totalChunks - 1)
  let w := writeChunk hashFn now fs body expectedHash (chunkExpectedSize s idx) isLastChunk
  match w.err with
  | none =>
      { fs := w.fs, received := saddIndex received idx,
        reply := { status := 200, code := "OK", retryable := none } }
  | some e =>
      { fs := w.fs, received := received, reply := chunkErrorReply e }

/-! ## Finalization engine (`src/services/upload/upload.finalize.ts`)

`finalizeUpload` is modelled as one complete call: a function of the durable
meta record, the session record, and an environment capturing what the
external collaborators (Redis lock, chunk counts, publish client, registry
mint) do during that call.  Await-time interleavings observable by the code
are exactly the environment fields (lock acquisition result, lock-lost flags
at the checked suspension boundaries, call outcomes). -/

/-- The `upload:<id>:meta` hash (the fields the finalize path touches). -/
structure Meta where
  status : Option String
  fileId : Option String
  blobId : Option String
  sizeBytes : Option Nat
  finalizingAt : Option Nat
  walrusUploadedAt : Option Nat
  metadataFinalizedAt : Option Nat
  completedAt : Option Nat
  failedAt : Option Nat
  errMsg : Option String
deriving DecidableEq

/-- Outcome of an awaited external call: it threw, or returned a value. -/
inductive CallOutcome where
  | threw (msg : String)
  | returned (value : String)
deriving DecidableEq

/-- Environment of one `finalizeUpload` call. -/
structure FinalizeEnv where
  now : Nat
  /-- the `SET NX` on the lock key succeeded -/
  lockAcquired : Bool
  /-- `SCARD` of the received-chunks set -/
  redisCount : Nat
  /-- `listChunks` from disk -/
  diskChunks : List Nat
  /-- lock observed lost at the pre-assembly refresh boundary -/
  lockLostBeforeAssemble : Bool
  /-- lock observed lost at the pre-publish refresh boundary -/
  lockLostBeforePublish : Bool
  /-- lock observed lost at the pre-mint refresh boundary -/
  lockLostBeforeMint : Bool
  /-- publish client outcome; `returned ""` models a falsy `blobId` -/
  publish : CallOutcome
  /-- registry mint outcome; the value is the created object id -/
  mint : CallOutcome
deriving DecidableEq

/-- Observable outcome of one `finalizeUpload` call. -/
structure FinalizeOut where
  meta : Meta
  /-- `ok (fileId, blobId, sizeBytes)` or the message of the propagated error -/
  result : Except String (String × String × Nat)
  /-- the publish client was invoked during this call -/
  publishInvoked : Bool
deriving DecidableEq

/-- The **Commit** step: one `MULTI`: meta `{status=completed, fileId,
blobId, sizeBytes, completedAt}`; the session / chunks / GC-index deletions
live outside `Meta`. -/
def finalizeCommit (s : SessionRec) (env : FinalizeEnv) (m : Meta)
    (fileId blobId : String) (invoked : Bool) : FinalizeOut :=
  { meta :=
      { m with
          status := some "completed",
          fileId := some fileId,
          blobId := some blobId,
          sizeBytes := some s.sizeBytes,
          completedAt := some env.now },
    result := .ok (fileId, blobId, s.sizeBytes),
    publishInvoked := invoked }

/-- The **Mint** step over its two inputs read from the state — the
checkpointed `meta.fileId` and the registry call's outcome (skipped when
`meta.fileId` is already checkpointed): lock-health check, registry call,
eager asset-fields cache write (external, not part of `Meta`), checkpoint
`meta.fileId` and `metadataFinalizedAt`, then commit. -/
def finalizeMintStep (s : SessionRec) (env : FinalizeEnv)
    (checkpointedFileId : Option String) (mintOutcome : CallOutcome)
    (m : Meta) (blobId : String) (invoked : Bool) : FinalizeOut :=
  match checkpointedFileId with
  | some fileId => finalizeCommit s env m fileId blobId invoked
  | none =>
      if env.lockLostBeforeMint then
        { meta := m, result := .error "UPLOAD_FINALIZATION_LOCK_LOST",
          publishInvoked := invoked }
      else
        match mintOutcome with
        | .threw msg => { meta := m, result := .error msg, publishInvoked := invoked }
        | .returned fileId =>
            finalizeCommit s env
              { m with
                  fileId := some fileId,
                  metadataFinalizedAt := some env.now } fileId blobId invoked

/-- The **Mint** step as the code runs it: the guard reads `meta.fileId`
and the registry call is the environment's `mint` outcome. -/
def finalizeMint (s : SessionRec) (env : FinalizeEnv) (m : Meta)
    (blobId : String) (invoked : Bool) : FinalizeOut :=
  finalizeMintStep s env m.fileId env.mint m blobId invoked

/-- The **Publish** step over the publish client's outcome: on a thrown
error propagate; on a falsy `blobId` fail `WALRUS_UPLOAD_FAILED`; on
success immediately checkpoint `meta.blobId` and `meta.walrusUploadedAt`,
then continue with mint.  `publishInvoked` is `true` on every path. -/
def finalizePublishStep (s : SessionRec) (env : FinalizeEnv)
    (pub : CallOutcome) (m1 : Meta) : FinalizeOut :=
  match pub with
  | .threw msg => { meta := m1, result := .error msg, publishInvoked := true }
  | .returned blobId =>
      if blobId = "" then
        { meta := m1, result := .error "WALRUS_UPLOAD_FAILED",
          publishInvoked := true }
      else
        finalizeMint s env
          { m1 with
              blobId := some blobId,
              walrusUploadedAt := some env.now } blobId true

/-- The assemble/publish stage over the checkpointed `meta.blobId`: with a
checkpoint, skip assembly and publish entirely and go to mint; without one,
check lock health at the assembly and publish boundaries, assemble (pure in
the model), and run the publish step. -/
def finalizeAfterGate (s : SessionRec) (env : FinalizeEnv)
    (checkpointedBlob : Option String) (m1 : Meta) : FinalizeOut :=
  match checkpointedBlob with
  | some blobId => finalizeMint s env m1 blobId false
  | none =>
      if env.lockLostBeforeAssemble then
        { meta := m1, result := .error "UPLOAD_FINALIZATION_LOCK_LOST",
          publishInvoked := false }
      else if env.lockLostBeforePublish then
        { meta := m1, result := .error "UPLOAD_FINALIZATION_LOCK_LOST",
          publishInvoked := false }
      else finalizePublishStep s env env.publish m1

/-- The disk integrity gate: `listChunks` covers `[0, totalChunks)`. -/
def diskCovers (totalChunks : Nat) (chunks : List Nat) : Bool :=
  (List.range totalChunks).all (fun i => i ∈ chunks)

/-- The `try` body of `finalizeUpload`, after the lock was acquired:
re-check, `status=finalizing`, integrity gate, assemble+publish with the
`blobId` checkpoint guard, mint with the `fileId` checkpoint guard, commit. -/
def finalizeBody (s : SessionRec) (pre : Meta) (env : FinalizeEnv) : FinalizeOut :=
  if pre.status = some "completed" then
    if pre.fileId = none ∨ pre.blobId = none then
      { meta := pre, result := .error "CORRUPT_COMPLETED_UPLOAD", publishInvoked := false }
    else
      { meta := pre,
        result := .ok (pre.fileId.getD "", pre.blobId.getD "",
          pre.sizeBytes.getD s.sizeBytes),
        publishInvoked := false }
  else if env.redisCount ≠ s.totalChunks then
    { meta :=
        { pre with status := some "finalizing", finalizingAt := some env.now },
      result := .error "INCOMPLETE_CHUNKS", publishInvoked := false }
  else if ¬ diskCovers s.totalChunks env.diskChunks then
    { meta :=
        { pre with status := some "finalizing", finalizingAt := some env.now },
      result := .error "MISSING_CHUNKS", publishInvoked := false }
  else
    finalizeAfterGate s env pre.blobId
      { pre with status := some "finalizing", finalizingAt := some env.now }

/-- The `catch` block: any error whose message is not one of the two
lock-ownership messages marks `meta` `{status=failed, error, failedAt}`
before the error propagates; lock-ownership errors propagate unmarked. -/
def finalizeCatch (env : FinalizeEnv) (b : FinalizeOut) : FinalizeOut :=
  match b.result with
  | .ok _ => b
  | .error msg =>
      if msg = "UPLOAD_FINALIZATION_LOCK_LOST" ∨
          msg = "UPLOAD_FINALIZATION_IN_PROGRESS" then b
      else
        { b with
            meta :=
              { b.meta with
                  status := some "failed",
                  errMsg := some msg,
                  failedAt := some env.now } }

/-- `finalizeUpload(session)`: fast-path idempotency read (before the
`try`), lock acquisition (`SET NX`, failure throws
`UPLOAD_FINALIZATION_IN_PROGRESS` before the `try`), then the guarded body
wrapped in the `catch` marking. -/
def finalizeUploadModel (s : SessionRec) (pre : Meta) (env : FinalizeEnv) :
    FinalizeOut :=
  if pre.status = some "completed" then
    if pre.fileId = none ∨ pre.blobId = none then
      { meta := pre, result := .error "CORRUPT_COMPLETED_UPLOAD", publishInvoked := false }
    else
      { meta := pre,
        result := .ok (pre.fileId.getD "", pre.blobId.getD "",
          pre.sizeBytes.getD s.sizeBytes),
        publishInvoked := false }
  else if ¬ env.lockAcquired then
    { meta := pre, result := .error "UPLOAD_FINALIZATION_IN_PROGRESS",
      publishInvoked := false }
  else
    finalizeCatch env (finalizeBody s pre env)

/-- A finite sequence of complete calls on the same session: each call
observes the meta record the previous call left behind.  Produces, per call,
the pre-call meta, the call's environment, and the call's outcome. -/
def finalizeSeq (s : SessionRec) :
    Meta → List FinalizeEnv → List (Meta × FinalizeEnv × FinalizeOut)
  | _, [] => []
  | m, e :: es =>
      let o := finalizeUploadModel s m e
      (m, e, o) :: finalizeSeq s o.meta es

/-- The publish client returned a (truthy) blob id in this environment. -/
def pubSucceeded (e : FinalizeEnv) : Bool :=
  match e.publish with
  | .returned b => b ≠ ""
  | .threw _ => false

/-- This call invoked the publish client and the publish succeeded. -/
def stepPubSuccess (st : Meta × FinalizeEnv × FinalizeOut) : Bool :=
  st.2.2.publishInvoked && pubSucceeded st.2.1

/-! ## Reaper (`src/state/gc/upload.gc.worker.ts`, `runUploadGc`) -/

/-- `GcConfig.grace = 15 * 60 * 1000`. -/
def GRACE_MS : Nat := 15 * 60 * 1000

/-- KV and disk state of one upload id as the reaper sees it:
`meta?.status` and `meta?.expiredAt`, existence of the session / chunks /
lock keys, mtimes of the `.bin` file and the chunk directory when they
exist, and GC-index membership. -/
structure GcUp where
  metaStatus : Option String
  metaExpiredAt : Option Nat
  hasSession : Bool
  hasChunksKey : Bool
  hasLock : Bool
  bin : Option Nat
  dir : Option Nat
  inGcIndex : Bool
deriving DecidableEq

/-- Disk deletions one reaper iteration performed on this upload (an
artifact counts as deleted only if it existed). -/
structure GcActions where
  deletedDir : Bool
  deletedBin : Bool
deriving DecidableEq

/-- No disk artifact touched. -/
def noGcActions : GcActions := { deletedDir := false, deletedBin := false }

/-- The expiry inference: when the session key is gone but the status never
transitioned out of `uploading`/`finalizing`, write `status=expired` with
`expiredAt` (TTL elapsed is not a state transition). -/
def gcInferredUp (now : Nat) (u : GcUp) : GcUp :=
  if ¬ u.hasSession ∧
      (u.metaStatus = some "uploading" ∨ u.metaStatus = some "finalizing") then
    { u with
        metaStatus := some "expired",
        metaExpiredAt := some now }
  else u

/-- `GC_ELIGIBLE_STATUSES`: only `{failed, expired, canceled}` are
collectible (a missing status is not). -/
def gcEligible (st : Option String) : Bool :=
  st = some "failed" ∨ st = some "expired" ∨ st = some "canceled"

/-- The artifact age reference the reaper uses: the mtime of `<id>.bin`
when it exists, else the mtime of the chunk directory. -/
def referenceMtime (u : GcUp) : Nat :=
  u.bin.getD (u.dir.getD 0)

/-- The loop body of `runUploadGc` for one upload id from the GC index:
hard skip while a finalize lock exists; infer `expired` when the session key
is gone but status is still `uploading`/`finalizing`; only
`{failed, expired, canceled}` are collectible; artifact age is the `.bin`
mtime when `.bin` exists, else the chunk directory's mtime; with neither
artifact, purge the KV keys and the index membership immediately; respect
the grace window; else delete both artifacts and purge KV atomically. -/
def gcStep (now grace : Nat) (u : GcUp) : GcUp × GcActions :=
  if u.hasLock then (u, noGcActions)
  else if ¬ gcEligible (gcInferredUp now u).metaStatus then
    (gcInferredUp now u, noGcActions)
  else if u.bin = none ∧ u.dir = none then
    ({ gcInferredUp now u with
        metaStatus := none,
        metaExpiredAt := none,
        hasChunksKey := false,
        hasSession := false,
        inGcIndex := false }, noGcActions)
  else if now - referenceMtime u < grace then (gcInferredUp now u, noGcActions)
  else
    ({ gcInferredUp now u with
        metaStatus := none,
        metaExpiredAt := none,
        hasChunksKey := false,
        hasSession := false,
        inGcIndex := false,
        bin := none,
        dir := none },
     { deletedDir := u.dir.isSome, deletedBin := u.bin.isSome })

/-- One reaper run over the members of the GC index (the per-id states are
independent in the loop). -/
def runUploadGc (now grace : Nat) (entries : List (String × GcUp)) :
    List (String × GcUp × GcActions) :=
  entries.map (fun e => (e.1, gcStep now grace e.2))

/-- Iterated reaper runs on one upload's state, at the given sequence of
run times. -/
def gcRuns (grace : Nat) : List Nat → GcUp → GcUp
  | [], u => u
  | now :: rest, u => gcRuns grace rest (gcStep now grace u).1

/-! ## Read proxy range handling (`src/routes/files.routes.ts`) -/

theorem jsLowerCode_jsUpperCode (n : Nat) :
    jsLowerCode (jsUpperCode n) = jsLowerCode n := by
  unfold jsLowerCode jsUpperCode
  split_ifs <;> omega

theorem jsToLower_jsToUpper (l : List Nat) :
    jsToLower (jsToUpper l) = jsToLower l := by
  simp [jsToLower, jsToUpper, List.map_map, Function.comp_def,
    jsLowerCode_jsUpperCode]

/-- Without an already-landed final file and without a live (fresh) temp
file, `writeChunk` reduces to its streaming body. -/
theorem writeChunk_not_contended (hashFn : List Nat → List Nat) (now : Nat)
    (fs : ChunkFs) (body expectedHash : List Nat) (expectedSize : Nat)
    (isLastChunk : Bool) (hfinal : fs.final = none)
    (htmp : ∀ t, fs.tmp = some t → now - t > STALE_TMP_MS) :
    writeChunk hashFn now fs body expectedHash expectedSize isLastChunk =
      writeChunkBody hashFn now { fs with tmp := none } body expectedHash
        expectedSize isLastChunk := by
  obtain ⟨f, t, d⟩ := fs
  simp only at hfinal
  subst hfinal
  unfold writeChunk
  cases t with
  | none => simp
  | some t0 =>
      have ht := htmp t0 rfl
      simp [ht]

/-- `SADD` makes the index a member. -/
theorem mem_saddIndex (received : List Nat) (idx : Nat) :
    idx ∈ saddIndex received idx := by
  unfold saddIndex
  split <;> simp_all

/-! ## Claim C4 -/

/-- C4: for a `writeChunk` call on a chunk whose final file does not yet
exist (and that is not blocked by a fresh in-progress temp file, so the
stream reaches the end-of-stream digest comparison), a body whose digest
differs from the expected hash fails with `HASH_MISMATCH`, the temp file is
deleted, and no final chunk file is left at `tmp/<uploadId>/<index>`. -/
theorem C4_hash_mismatch_rejected (hashFn : List Nat → List Nat) (now : Nat)
    (fs : ChunkFs) (body expectedHash : List Nat) (expectedSize : Nat)
    (isLastChunk : Bool)
    (hfinal : fs.final = none)
    (htmp : ∀ t, fs.tmp = some t → now - t > STALE_TMP_MS)
    (hlen : body.length ≤ expectedSize)
    (hhash : hashFn body ≠ jsToLower expectedHash) :
    (writeChunk hashFn now fs body expectedHash expectedSize isLastChunk).err =
        some ChunkErr.hashMismatch ∧
    (writeChunk hashFn now fs body expectedHash expectedSize isLastChunk).fs.final =
        none ∧
    (writeChunk hashFn now fs body expectedHash expectedSize isLastChunk).fs.tmp =
        none := by
  rw [writeChunk_not_contended hashFn now fs body expectedHash expectedSize
    isLastChunk hfinal htmp]
  unfold writeChunkBody
  have h1 : ¬ body.length > expectedSize := by omega
  simp [h1, hhash, hfinal]

/-- Witness for C4 at a concrete input. -/
theorem C4_hash_mismatch_rejected_witness :
    (writeChunk (fun _ => codes "aa") 0 ⟨none, none, 0⟩ [7] (codes "bb") 1
        true).err = some ChunkErr.hashMismatch := by
  exact (C4_hash_mismatch_rejected (fun _ => codes "aa") 0 ⟨none, none, 0⟩ [7]
    (codes "bb") 1 true rfl (by intro t ht; cases ht) (by decide)
    (by decide)).1

/-! ## Claim C8 -/

/-- C8: `writeChunk` is idempotent for persisted chunks: when the final
chunk file already exists, it returns success without reading the input
stream and without modifying the filesystem state, and a retried upload of
that chunk still answers success to the client with the index a member of
the KV received-chunks set. -/
theorem C8_persisted_chunk_idempotent (hashFn : List Nat → List Nat)
    (now : Nat) (s : SessionRec) (fs : ChunkFs) (received : List Nat)
    (idx : Nat) (body expectedHash : List Nat) (expectedSize : Nat)
    (isLastChunk : Bool) (c : List Nat) (hfinal : fs.final = some c) :
    writeChunk hashFn now fs body expectedHash expectedSize isLastChunk =
      { fs := fs, err := none, streamConsumed := false } ∧
    (chunkPutCore hashFn now s fs received idx body expectedHash).reply =
      { status := 200, code := "OK", retryable := none } ∧
    idx ∈ (chunkPutCore hashFn now s fs received idx body expectedHash).received ∧
    (chunkPutCore hashFn now s fs received idx body expectedHash).fs = fs := by
  have hw : ∀ es il, writeChunk hashFn now fs body expectedHash es il =
      { fs := fs, err := none, streamConsumed := false } := by
    intro es il
    unfold writeChunk
    simp [hfinal]
  refine ⟨hw expectedSize isLastChunk, ?_, ?_, ?_⟩ <;>
    simp [chunkPutCore, hw, mem_saddIndex]

/-- Witness for C8 at a concrete input. -/
theorem C8_persisted_chunk_idempotent_witness :
    (chunkPutCore (fun _ => codes "aa") 0 ⟨"u", 5, 2, 3, 1, none⟩
        ⟨some [1, 2], none, 0⟩ [0] 1 [9] (codes "aa")).reply =
      { status := 200, code := "OK", retryable := none } := by
  exact (C8_persisted_chunk_idempotent (fun _ => codes "aa") 0
    ⟨"u", 5, 2, 3, 1, none⟩ ⟨some [1, 2], none, 0⟩ [0] 1 [9] (codes "aa")
    2 true [1, 2] rfl).2.1

/-! ## Claim C9 -/

/-- C9: the store compares the digest against `expectedHash.toLowerCase()`,
so hash acceptance is case-insensitive in the header: an uppercased
`x-chunk-sha256` header behaves exactly as the same header uppercased does
lowercased, and in particular the uppercase hex digest of the body is
accepted whenever the (lowercase) digest itself is. -/
theorem C9_hash_header_case_insensitive (hashFn : List Nat → List Nat)
    (now : Nat) (fs : ChunkFs) (body : List Nat) (expectedSize : Nat)
    (isLastChunk : Bool) :
    (∀ h, writeChunk hashFn now fs body (jsToUpper h) expectedSize isLastChunk =
      writeChunk hashFn now fs body h expectedSize isLastChunk) ∧
    (jsToLower (hashFn body) = hashFn body →
      fs.final = none → fs.tmp = none →
      body.length ≤ expectedSize →
      (isLastChunk = true → 0 < body.length) →
      (isLastChunk = false → body.length = expectedSize) →
      (writeChunk hashFn now fs body (jsToUpper (hashFn body)) expectedSize
          isLastChunk).err = none) := by
  have hbody : ∀ h, writeChunkBody hashFn now { fs with tmp := none } body
      (jsToUpper h) expectedSize isLastChunk =
      writeChunkBody hashFn now { fs with tmp := none } body h expectedSize
        isLastChunk := by
    intro h
    unfold writeChunkBody
    rw [jsToLower_jsToUpper]
  have hmain : ∀ h, writeChunk hashFn now fs body (jsToUpper h) expectedSize
      isLastChunk =
      writeChunk hashFn now fs body h expectedSize isLastChunk := by
    intro h
    unfold writeChunk
    cases hf : fs.final with
    | some c => simp [hf]
    | none =>
        cases ht : fs.tmp with
        | none =>
            have := hbody h
            simp only [hf, ht, Option.isSome_none, Bool.false_eq_true,
              if_false]
            have hfs : fs = { fs with tmp := none } := by
              obtain ⟨f, t, d⟩ := fs
              simp only at hf ht
              subst hf; subst ht; rfl
            rw [hfs] at this ⊢
            exact this
        | some t0 =>
            simp only [hf, ht, Option.isSome_none, Bool.false_eq_true,
              if_false]
            have hb := hbody h
            simp only [hf] at hb
            split
            · exact hb
            · rfl
  refine ⟨hmain, ?_⟩
  intro hlow hfinal htmp hlen hlast hnotlast
  rw [hmain (hashFn body)]
  rw [writeChunk_not_contended hashFn now fs body (hashFn body) expectedSize
    isLastChunk hfinal (by intro t ht; rw [htmp] at ht; cases ht)]
  unfold writeChunkBody
  have h1 : ¬ body.length > expectedSize := by omega
  have h2 : ¬ hashFn body ≠ jsToLower (hashFn body) := by
    rw [hlow]
    simp
  cases isLastChunk with
  | true =>
      have h3 : ¬ (body.length = 0 ∨ body.length > expectedSize) := by
        have := hlast rfl
        omega
      have h5 : body ≠ [] := by
        intro he
        exact h3 (Or.inl (by simp [he]))
      simp [h1, h2, h3, h5]
  | false =>
      have h4 : body.length = expectedSize := hnotlast rfl
      simp [h1, h2, h4]

/-- Witness for C9 at a concrete input: the uppercase header `"AB"` is
accepted for a body whose digest is `"ab"`. -/
theorem C9_hash_header_case_insensitive_witness :
    (writeChunk (fun _ => codes "ab") 0 ⟨none, none, 0⟩ [7]
        (jsToUpper (codes "ab")) 1 true).err = none := by
  exact (C9_hash_header_case_insensitive (fun _ => codes "ab") 0
    ⟨none, none, 0⟩ [7] 1 true).2 (by decide) rfl rfl (by decide)
    (fun _ => by decide) (fun h => by cases h)

/-! ## Claim C5 -/

/-- C5: the chunk route's error mapping: the four store validation failures
answer 400 `INVALID_CHUNK` with `retryable=false`; `CHUNK_IN_PROGRESS`
answers 409 with `retryable=true`; any other store error answers 500
`CHUNK_UPLOAD_FAILED` with `retryable=true` — and the route applies exactly
this mapping whenever the store fails. -/
theorem C5_chunk_error_http_mapping :
    (∀ e : ChunkErr,
      ((e = .hashMismatch ∨ e = .chunkTooLarge ∨ e = .chunkSizeMismatch ∨
          e = .invalidLastChunkSize) →
        chunkErrorReply e =
          { status := 400, code := "INVALID_CHUNK", retryable := some false }) ∧
      (e = .chunkInProgress →
        chunkErrorReply e =
          { status := 409, code := "CHUNK_IN_PROGRESS", retryable := some true }) ∧
      (e ≠ .hashMismatch → e ≠ .chunkTooLarge → e ≠ .chunkSizeMismatch →
        e ≠ .invalidLastChunkSize → e ≠ .chunkInProgress →
        chunkErrorReply e =
          { status := 500, code := "CHUNK_UPLOAD_FAILED", retryable := some true })) ∧
    (∀ (hashFn : List Nat → List Nat) (now : Nat) (s : SessionRec)
        (fs : ChunkFs) (received : List Nat) (idx : Nat)
        (body expectedHash : List Nat) (e : ChunkErr),
      (writeChunk hashFn now fs body expectedHash (chunkExpectedSize s idx)
          (decide (idx = s.totalChunks - 1))).err = some e →
      (chunkPutCore hashFn now s fs received idx body expectedHash).reply =
        chunkErrorReply e) := by
  constructor
  · intro e
    refine ⟨?_, ?_, ?_⟩ <;> cases e <;> simp [chunkErrorReply]
  · intro hashFn now s fs received idx body expectedHash e hw
    unfold chunkPutCore
    simp only [hw]

/-- Witness for C5 at a concrete input: a hash-mismatching chunk upload is
answered 400 `INVALID_CHUNK`, non-retryable. -/
theorem C5_chunk_error_http_mapping_witness :
    (chunkPutCore (fun _ => codes "aa") 0 ⟨"u", 4, 2, 2, 1, none⟩
        ⟨none, none, 0⟩ [] 0 [7, 8] (codes "bb")).reply =
      { status := 400, code := "INVALID_CHUNK", retryable := some false } := by
  have h2 := C5_chunk_error_http_mapping.2 (fun _ => codes "aa") 0
    ⟨"u", 4, 2, 2, 1, none⟩ ⟨none, none, 0⟩ [] 0 [7, 8] (codes "bb")
    ChunkErr.hashMismatch (by decide)
  have h1 := (C5_chunk_error_http_mapping.1 ChunkErr.hashMismatch).1
    (Or.inl rfl)
  rw [h2, h1]

/-! ## Claim C6 -/

/-- C6: the chunk handler computes `expectedSize` as `chunkSize` for a
non-last index and `sizeBytes − chunkSize·(totalChunks−1)` for the last
index, and `writeChunk` (on a non-contended slot with a matching digest)
enforces the size policy: a last chunk succeeds exactly when
`0 < size ≤ expectedSize` and fails `INVALID_LAST_CHUNK_SIZE` when empty;
a non-last chunk succeeds exactly when `size = expectedSize` and fails
`CHUNK_SIZE_MISMATCH` when the written size falls short. -/
theorem C6_expected_size_policy (hashFn : List Nat → List Nat) (now : Nat)
    (s : SessionRec) (idx : Nat) (fs : ChunkFs) (body expectedHash : List Nat)
    (hfinal : fs.final = none) (htmp : fs.tmp = none)
    (hhash : hashFn body = jsToLower expectedHash) :
    (idx = s.totalChunks - 1 →
      chunkExpectedSize s idx = s.sizeBytes - s.chunkSize * (s.totalChunks - 1)) ∧
    (idx ≠ s.totalChunks - 1 → chunkExpectedSize s idx = s.chunkSize) ∧
    (idx = s.totalChunks - 1 →
      ((writeChunk hashFn now fs body expectedHash (chunkExpectedSize s idx)
          (decide (idx = s.totalChunks - 1))).err = none ↔
        (0 < body.length ∧ body.length ≤ chunkExpectedSize s idx))) ∧
    (idx = s.totalChunks - 1 → body.length = 0 →
      (writeChunk hashFn now fs body expectedHash (chunkExpectedSize s idx)
          (decide (idx = s.totalChunks - 1))).err =
        some ChunkErr.invalidLastChunkSize) ∧
    (idx ≠ s.totalChunks - 1 →
      ((writeChunk hashFn now fs body expectedHash (chunkExpectedSize s idx)
          (decide (idx = s.totalChunks - 1))).err = none ↔
        body.length = chunkExpectedSize s idx)) ∧
    (idx ≠ s.totalChunks - 1 → body.length < chunkExpectedSize s idx →
      (writeChunk hashFn now fs body expectedHash (chunkExpectedSize s idx)
          (decide (idx = s.totalChunks - 1))).err =
        some ChunkErr.chunkSizeMismatch) := by
  have hred : ∀ es il, writeChunk hashFn now fs body expectedHash es il =
      writeChunkBody hashFn now { fs with tmp := none } body expectedHash es il :=
    fun es il => writeChunk_not_contended hashFn now fs body expectedHash es il
      hfinal (by intro t ht; rw [htmp] at ht; cases ht)
  have h2 : ¬ hashFn body ≠ jsToLower expectedHash := by
    rw [hhash]
    simp
  refine ⟨fun h => by simp [chunkExpectedSize, h], fun h => by
    simp [chunkExpectedSize, h], ?_, ?_, ?_, ?_⟩
  · intro h
    subst h
    rw [hred]
    unfold writeChunkBody
    by_cases c1 : body.length > chunkExpectedSize s (s.totalChunks - 1)
    · simp [c1]
      try omega
    · by_cases c2 : body.length = 0
      · simp [c1, c2, hhash]
        try omega
      · have hne : body ≠ [] := fun he => c2 (by simp [he])
        simp [c1, c2, hne, hhash]
        try omega
  · intro h hempty
    subst h
    rw [hred]
    unfold writeChunkBody
    have c1 : ¬ body.length > chunkExpectedSize s (s.totalChunks - 1) := by
      omega
    simp [c1, hempty, hhash]
  · intro h
    rw [hred]
    unfold writeChunkBody
    by_cases c1 : body.length > chunkExpectedSize s idx
    · simp [h, c1]
      try omega
    · by_cases c2 : body.length = chunkExpectedSize s idx
      · simp [h, c1, c2, hhash]
      · simp [h, c1, c2, hhash]
  · intro h hlt
    rw [hred]
    unfold writeChunkBody
    have c1 : ¬ body.length > chunkExpectedSize s idx := by omega
    have c2 : body.length ≠ chunkExpectedSize s idx := by omega
    simp [h, c1, c2, hhash]

/-- Witness for C6 at a concrete input: session of 5 bytes in chunks of 2,
last index 2 with one byte succeeds. -/
theorem C6_expected_size_policy_witness :
    chunkExpectedSize ⟨"u", 5, 2, 3, 1, none⟩ 2 = 1 ∧
    (writeChunk (fun _ => codes "ab") 0 ⟨none, none, 0⟩ [9] (codes "ab")
        (chunkExpectedSize ⟨"u", 5, 2, 3, 1, none⟩ 2) (decide (2 = 3 - 1))).err =
      none := by
  have h := C6_expected_size_policy (fun _ => codes "ab") 0
    ⟨"u", 5, 2, 3, 1, none⟩ 2 ⟨none, none, 0⟩ [9] (codes "ab") rfl rfl
    (by decide)
  refine ⟨by decide, ?_⟩
  exact (h.2.2.1 rfl).mpr (by decide)

/-! ## Structural lemmas about the finalize model -/

theorem finalizeMintStep_publishInvoked (s : SessionRec) (env : FinalizeEnv)
    (fid : Option String) (mo : CallOutcome) (m : Meta) (b : String)
    (inv : Bool) :
    (finalizeMintStep s env fid mo m b inv).publishInvoked = inv := by
  cases fid with
  | some f => rfl
  | none =>
      by_cases hl : env.lockLostBeforeMint = true
      · simp [finalizeMintStep, hl]
      · cases mo <;> simp [finalizeMintStep, hl, finalizeCommit]

theorem finalizeMint_publishInvoked (s : SessionRec) (env : FinalizeEnv)
    (m : Meta) (b : String) (inv : Bool) :
    (finalizeMint s env m b inv).publishInvoked = inv :=
  finalizeMintStep_publishInvoked s env m.fileId env.mint m b inv

theorem finalizeCatch_ok (env : FinalizeEnv) (m : Meta)
    (v : String × String × Nat) (i : Bool) :
    finalizeCatch env ⟨m, .ok v, i⟩ = ⟨m, .ok v, i⟩ := rfl

theorem finalizeCatch_error (env : FinalizeEnv) (m : Meta) (msg : String)
    (i : Bool) :
    finalizeCatch env ⟨m, .error msg, i⟩ =
      if msg = "UPLOAD_FINALIZATION_LOCK_LOST" ∨
          msg = "UPLOAD_FINALIZATION_IN_PROGRESS" then ⟨m, .error msg, i⟩
      else ⟨{ m with
                status := some "failed",
                errMsg := some msg,
                failedAt := some env.now }, .error msg, i⟩ := rfl

theorem finalizeCatch_publishInvoked (env : FinalizeEnv) (o : FinalizeOut) :
    (finalizeCatch env o).publishInvoked = o.publishInvoked := by
  obtain ⟨m, r, i⟩ := o
  cases r with
  | error msg =>
      rw [finalizeCatch_error]
      split <;> rfl
  | ok v => rw [finalizeCatch_ok]

theorem finalizeMintStep_blobId (s : SessionRec) (env : FinalizeEnv)
    (fid : Option String) (mo : CallOutcome) (m : Meta) (b : String)
    (inv : Bool) (h : m.blobId = some b) :
    (finalizeMintStep s env fid mo m b inv).meta.blobId = some b := by
  cases fid with
  | some f => simp [finalizeMintStep, finalizeCommit]
  | none =>
      by_cases hl : env.lockLostBeforeMint = true
      · simp [finalizeMintStep, hl, h]
      · cases mo <;> simp [finalizeMintStep, hl, finalizeCommit, h]

theorem finalizeMint_blobId (s : SessionRec) (env : FinalizeEnv) (m : Meta)
    (b : String) (inv : Bool) (h : m.blobId = some b) :
    (finalizeMint s env m b inv).meta.blobId = some b :=
  finalizeMintStep_blobId s env m.fileId env.mint m b inv h

theorem finalizeMintStep_walrusUploadedAt (s : SessionRec)
    (env : FinalizeEnv) (fid : Option String) (mo : CallOutcome) (m : Meta)
    (b : String) (inv : Bool) :
    (finalizeMintStep s env fid mo m b inv).meta.walrusUploadedAt =
      m.walrusUploadedAt := by
  cases fid with
  | some f => rfl
  | none =>
      by_cases hl : env.lockLostBeforeMint = true
      · simp [finalizeMintStep, hl]
      · cases mo <;> simp [finalizeMintStep, hl, finalizeCommit]

theorem finalizeMint_walrusUploadedAt (s : SessionRec) (env : FinalizeEnv)
    (m : Meta) (b : String) (inv : Bool) :
    (finalizeMint s env m b inv).meta.walrusUploadedAt =
      m.walrusUploadedAt :=
  finalizeMintStep_walrusUploadedAt s env m.fileId env.mint m b inv

/-- Reduction of the assemble/publish stage when no `blobId` checkpoint
exists. -/
theorem finalizeAfterGate_none (s : SessionRec) (env : FinalizeEnv)
    (m1 : Meta) :
    finalizeAfterGate s env none m1 =
      if env.lockLostBeforeAssemble then
        { meta := m1, result := .error "UPLOAD_FINALIZATION_LOCK_LOST",
          publishInvoked := false }
      else if env.lockLostBeforePublish then
        { meta := m1, result := .error "UPLOAD_FINALIZATION_LOCK_LOST",
          publishInvoked := false }
      else finalizePublishStep s env env.publish m1 := rfl

/-- Reduction of the assemble/publish stage when a `blobId` checkpoint
exists: assembly and publish are skipped. -/
theorem finalizeAfterGate_some (s : SessionRec) (env : FinalizeEnv)
    (b0 : String) (m1 : Meta) :
    finalizeAfterGate s env (some b0) m1 = finalizeMint s env m1 b0 false :=
  rfl

/-- Reduction of the publish step on a returned blob id. -/
theorem finalizePublishStep_returned (s : SessionRec) (env : FinalizeEnv)
    (b : String) (m1 : Meta) :
    finalizePublishStep s env (.returned b) m1 =
      if b = "" then
        { meta := m1, result := .error "WALRUS_UPLOAD_FAILED",
          publishInvoked := true }
      else
        finalizeMint s env
          { m1 with
              blobId := some b,
              walrusUploadedAt := some env.now } b true := rfl

theorem finalizeAfterGate_some_publishInvoked (s : SessionRec)
    (env : FinalizeEnv) (b0 : String) (m1 : Meta) :
    (finalizeAfterGate s env (some b0) m1).publishInvoked = false :=
  finalizeMint_publishInvoked s env m1 b0 false

theorem finalizeCatch_blobId (env : FinalizeEnv) (o : FinalizeOut) :
    (finalizeCatch env o).meta.blobId = o.meta.blobId := by
  obtain ⟨m, r, i⟩ := o
  cases r with
  | error msg =>
      rw [finalizeCatch_error]
      split <;> rfl
  | ok v => rw [finalizeCatch_ok]

theorem finalizeCatch_walrusUploadedAt (env : FinalizeEnv) (o : FinalizeOut) :
    (finalizeCatch env o).meta.walrusUploadedAt = o.meta.walrusUploadedAt := by
  obtain ⟨m, r, i⟩ := o
  cases r with
  | error msg =>
      rw [finalizeCatch_error]
      split <;> rfl
  | ok v => rw [finalizeCatch_ok]

/-- When the lock section is reached, `finalizeUpload` is the `catch`
wrapper around the `try` body. -/
theorem finalizeUploadModel_eq_catch (s : SessionRec) (pre : Meta)
    (env : FinalizeEnv) (c1 : ¬ pre.status = some "completed")
    (c2 : env.lockAcquired = true) :
    finalizeUploadModel s pre env =
      finalizeCatch env (finalizeBody s pre env) := by
  unfold finalizeUploadModel
  rw [if_neg c1, if_neg (by simp [c2])]

/-- The publish client is invoked only when the meta record holds no
`blobId` checkpoint. -/
theorem finalize_invoked_no_checkpoint (s : SessionRec) (pre : Meta)
    (env : FinalizeEnv)
    (h : (finalizeUploadModel s pre env).publishInvoked = true) :
    pre.blobId = none := by
  by_contra hne
  obtain ⟨b, hb⟩ := Option.ne_none_iff_exists'.mp hne
  unfold finalizeUploadModel at h
  split at h
  · split at h <;> simp at h
  · split at h
    · simp at h
    · rw [finalizeCatch_publishInvoked] at h
      unfold finalizeBody at h
      split at h
      · split at h <;> simp at h
      · split at h
        · simp at h
        · split at h
          · simp at h
          · rw [hb, finalizeAfterGate_some_publishInvoked] at h
            exact Bool.false_ne_true h

/-- Once checkpointed, `meta.blobId` is preserved by every further call. -/
theorem finalize_blob_monotone (s : SessionRec) (pre : Meta)
    (env : FinalizeEnv) (b : String) (hb : pre.blobId = some b) :
    (finalizeUploadModel s pre env).meta.blobId = some b := by
  unfold finalizeUploadModel
  split
  · split <;> exact hb
  · split
    · exact hb
    · rw [finalizeCatch_blobId]
      unfold finalizeBody
      split
      · split <;> exact hb
      · split
        · exact hb
        · split
          · exact hb
          · rw [hb, finalizeAfterGate_some]
            exact finalizeMint_blobId s env _ b false rfl

/-- A successful publish is immediately followed by checkpointing
`meta.blobId` and `meta.walrusUploadedAt` (and nothing later in the run, or
in its `catch`, clears them). -/
theorem finalize_success_checkpoint (s : SessionRec) (pre : Meta)
    (env : FinalizeEnv) (b : String) (hp : env.publish = .returned b)
    (hb : b ≠ "")
    (h : (finalizeUploadModel s pre env).publishInvoked = true) :
    (finalizeUploadModel s pre env).meta.blobId = some b ∧
    (finalizeUploadModel s pre env).meta.walrusUploadedAt = some env.now := by
  by_cases c1 : pre.status = some "completed"
  · exfalso
    unfold finalizeUploadModel at h
    rw [if_pos c1] at h
    split at h <;> simp at h
  · by_cases c2 : env.lockAcquired = true
    · rw [finalizeUploadModel_eq_catch s pre env c1 c2] at h ⊢
      rw [finalizeCatch_publishInvoked] at h
      rw [finalizeCatch_blobId, finalizeCatch_walrusUploadedAt]
      unfold finalizeBody at h ⊢
      rw [if_neg c1] at h ⊢
      by_cases c3 : env.redisCount ≠ s.totalChunks
      · exfalso
        rw [if_pos c3] at h
        simp at h
      · rw [if_neg c3] at h ⊢
        by_cases c4 : diskCovers s.totalChunks env.diskChunks = true
        · rw [if_neg (by simp [c4])] at h ⊢
          cases hblob : pre.blobId with
          | some b0 =>
              exfalso
              try rw [hblob] at h
              rw [finalizeAfterGate_some_publishInvoked] at h
              exact Bool.false_ne_true h
          | none =>
              try rw [hblob] at h
              try rw [hblob]
              rw [finalizeAfterGate_none] at h ⊢
              by_cases c5 : env.lockLostBeforeAssemble = true
              · exfalso
                rw [if_pos c5] at h
                simp at h
              · rw [if_neg c5] at h ⊢
                by_cases c6 : env.lockLostBeforePublish = true
                · exfalso
                  rw [if_pos c6] at h
                  simp at h
                · rw [if_neg c6] at h ⊢
                  rw [hp, finalizePublishStep_returned, if_neg hb] at h ⊢
                  constructor
                  · exact finalizeMint_blobId s env _ b true rfl
                  · rw [finalizeMint_walrusUploadedAt]
        · exfalso
          rw [if_pos (by simp [c4])] at h
          simp at h
    · exfalso
      unfold finalizeUploadModel at h
      rw [if_neg c1, if_pos (by simp [c2])] at h
      simp at h

theorem pubSucceeded_exists (e : FinalizeEnv) (h : pubSucceeded e = true) :
    ∃ b, e.publish = .returned b ∧ b ≠ "" := by
  unfold pubSucceeded at h
  cases hp : e.publish with
  | threw msg =>
      rw [hp] at h
      simp at h
  | returned v =>
      rw [hp] at h
      simp at h
      exact ⟨v, rfl, h⟩

/-- Each element of a call sequence is the model applied to its own
pre-meta and environment. -/
theorem finalizeSeq_mem (s : SessionRec) :
    ∀ (envs : List FinalizeEnv) (m : Meta)
      (st : Meta × FinalizeEnv × FinalizeOut), st ∈ finalizeSeq s m envs →
      st.2.2 = finalizeUploadModel s st.1 st.2.1 := by
  intro envs
  induction envs with
  | nil =>
      intro m st h
      simp [finalizeSeq] at h
  | cons e es ih =>
      intro m st h
      simp only [finalizeSeq, List.mem_cons] at h
      rcases h with h | h
      · subst h
        rfl
      · exact ih _ st h

/-- Once `meta.blobId` is checkpointed, no later call in the sequence
invokes the publish client. -/
theorem finalizeSeq_no_invoke_after_checkpoint (s : SessionRec) (b : String) :
    ∀ (envs : List FinalizeEnv) (m : Meta), m.blobId = some b →
      (finalizeSeq s m envs).countP (fun st => st.2.2.publishInvoked) = 0 := by
  intro envs
  induction envs with
  | nil =>
      intro m _
      simp [finalizeSeq]
  | cons e es ih =>
      intro m hm
      have hinv : (finalizeUploadModel s m e).publishInvoked = false := by
        cases hi : (finalizeUploadModel s m e).publishInvoked
        · rfl
        · have := finalize_invoked_no_checkpoint s m e hi
          rw [hm] at this
          cases this
      simp only [finalizeSeq, List.countP_cons, hinv]
      simp only [Bool.false_eq_true, if_false, Nat.add_zero]
      exact ih _ (finalize_blob_monotone s m e b hm)

/-- Over any call sequence, at most one call performs a successful
publish. -/
theorem finalizeSeq_success_le_one (s : SessionRec) :
    ∀ (envs : List FinalizeEnv) (m : Meta),
      (finalizeSeq s m envs).countP stepPubSuccess ≤ 1 := by
  intro envs
  induction envs with
  | nil =>
      intro m
      simp [finalizeSeq]
  | cons e es ih =>
      intro m
      simp only [finalizeSeq, List.countP_cons]
      by_cases hs : stepPubSuccess (m, e, finalizeUploadModel s m e) = true
      · have hinv : (finalizeUploadModel s m e).publishInvoked = true :=
          (Bool.and_eq_true _ _).mp hs |>.1
        obtain ⟨b, hp, hb⟩ :=
          pubSucceeded_exists e ((Bool.and_eq_true _ _).mp hs |>.2)
        have hcp := (finalize_success_checkpoint s m e b hp hb hinv).1
        have hzero : (finalizeSeq s (finalizeUploadModel s m e).meta
            es).countP (fun st => st.2.2.publishInvoked) = 0 :=
          finalizeSeq_no_invoke_after_checkpoint s b es _ hcp
        have hle : (finalizeSeq s (finalizeUploadModel s m e).meta
            es).countP stepPubSuccess ≤
            (finalizeSeq s (finalizeUploadModel s m e).meta es).countP
              (fun st => st.2.2.publishInvoked) := by
          apply List.countP_mono_left
          intro st _ h
          exact (Bool.and_eq_true _ _).mp h |>.1
        rw [if_pos hs]
        omega
      · have hle := ih (finalizeUploadModel s m e).meta
        rw [if_neg hs]
        omega

/-- A mint-stage error leaves the meta record exactly as the stage found
it. -/
theorem finalizeMintStep_error_meta (s : SessionRec) (env : FinalizeEnv)
    (fid : Option String) (mo : CallOutcome) (m : Meta) (b : String)
    (inv : Bool) (msg : String)
    (h : (finalizeMintStep s env fid mo m b inv).result = .error msg) :
    (finalizeMintStep s env fid mo m b inv).meta = m := by
  cases fid with
  | some f => simp [finalizeMintStep, finalizeCommit] at h
  | none =>
      by_cases hl : env.lockLostBeforeMint = true
      · simp [finalizeMintStep, hl]
      · cases mo with
        | threw msg0 => simp [finalizeMintStep, hl]
        | returned f => simp [finalizeMintStep, hl, finalizeCommit] at h

theorem finalizeMint_error_meta (s : SessionRec) (env : FinalizeEnv)
    (m : Meta) (b : String) (inv : Bool) (msg : String)
    (h : (finalizeMint s env m b inv).result = .error msg) :
    (finalizeMint s env m b inv).meta = m :=
  finalizeMintStep_error_meta s env m.fileId env.mint m b inv msg h

/-- A publish-stage error leaves `failedAt`, the error message and the
status exactly as the stage found them. -/
theorem finalizePublishStep_error_meta (s : SessionRec) (env : FinalizeEnv)
    (pub : CallOutcome) (m1 : Meta) (msg : String)
    (h : (finalizePublishStep s env pub m1).result = .error msg) :
    (finalizePublishStep s env pub m1).meta.failedAt = m1.failedAt ∧
    (finalizePublishStep s env pub m1).meta.errMsg = m1.errMsg ∧
    (finalizePublishStep s env pub m1).meta.status = m1.status := by
  cases pub with
  | threw msg0 => exact ⟨rfl, rfl, rfl⟩
  | returned b =>
      by_cases hbe : b = ""
      · rw [finalizePublishStep_returned, if_pos hbe]
        exact ⟨rfl, rfl, rfl⟩
      · rw [finalizePublishStep_returned, if_neg hbe] at h ⊢
        rw [finalizeMint_error_meta s env _ b true msg h]
        exact ⟨rfl, rfl, rfl⟩

/-- An assemble/publish-stage error leaves `failedAt`, the error message
and the status exactly as the stage found them. -/
theorem finalizeAfterGate_error_meta (s : SessionRec) (env : FinalizeEnv)
    (cb : Option String) (m1 : Meta) (msg : String)
    (h : (finalizeAfterGate s env cb m1).result = .error msg) :
    (finalizeAfterGate s env cb m1).meta.failedAt = m1.failedAt ∧
    (finalizeAfterGate s env cb m1).meta.errMsg = m1.errMsg ∧
    (finalizeAfterGate s env cb m1).meta.status = m1.status := by
  cases cb with
  | some b0 =>
      rw [finalizeAfterGate_some] at h ⊢
      rw [finalizeMint_error_meta s env m1 b0 false msg h]
      exact ⟨rfl, rfl, rfl⟩
  | none =>
      rw [finalizeAfterGate_none] at h ⊢
      by_cases c5 : env.lockLostBeforeAssemble = true
      · rw [if_pos c5]
        exact ⟨rfl, rfl, rfl⟩
      · rw [if_neg c5] at h ⊢
        by_cases c6 : env.lockLostBeforePublish = true
        · rw [if_pos c6]
          exact ⟨rfl, rfl, rfl⟩
        · rw [if_neg c6] at h ⊢
          exact finalizePublishStep_error_meta s env env.publish m1 msg h

/-- A `try`-body error leaves `failedAt` and the error message untouched,
and leaves the status either as it was or at the `finalizing` value the run
wrote before failing. -/
theorem finalizeBody_error_meta (s : SessionRec) (pre : Meta)
    (env : FinalizeEnv) (msg : String)
    (h : (finalizeBody s pre env).result = .error msg) :
    (finalizeBody s pre env).meta.failedAt = pre.failedAt ∧
    (finalizeBody s pre env).meta.errMsg = pre.errMsg ∧
    ((finalizeBody s pre env).meta.status = pre.status ∨
      (finalizeBody s pre env).meta.status = some "finalizing") := by
  unfold finalizeBody at h ⊢
  by_cases c1 : pre.status = some "completed"
  · rw [if_pos c1] at h ⊢
    split <;> exact ⟨rfl, rfl, Or.inl rfl⟩
  · rw [if_neg c1] at h ⊢
    by_cases c3 : env.redisCount ≠ s.totalChunks
    · rw [if_pos c3]
      exact ⟨rfl, rfl, Or.inr rfl⟩
    · rw [if_neg c3] at h ⊢
      by_cases c4 : ¬ diskCovers s.totalChunks env.diskChunks = true
      · rw [if_pos c4]
        exact ⟨rfl, rfl, Or.inr rfl⟩
      · rw [if_neg c4] at h ⊢
        have hg := finalizeAfterGate_error_meta s env pre.blobId _ msg h
        exact ⟨hg.1.trans rfl, hg.2.1.trans rfl, Or.inr (hg.2.2.trans rfl)⟩


/-- A non-lock error surfacing from the `catch` block carries the failure
marking. -/
theorem finalizeCatch_error_marks (env : FinalizeEnv) (o : FinalizeOut)
    (msg : String) (hres : (finalizeCatch env o).result = .error msg)
    (h1 : msg ≠ "UPLOAD_FINALIZATION_LOCK_LOST")
    (h2 : msg ≠ "UPLOAD_FINALIZATION_IN_PROGRESS") :
    (finalizeCatch env o).meta.status = some "failed" ∧
    (finalizeCatch env o).meta.failedAt = some env.now ∧
    (finalizeCatch env o).meta.errMsg = some msg := by
  obtain ⟨m, r, i⟩ := o
  cases r with
  | ok v =>
      rw [finalizeCatch_ok] at hres
      simp at hres
  | error msg0 =>
      rw [finalizeCatch_error] at hres ⊢
      by_cases hl : msg0 = "UPLOAD_FINALIZATION_LOCK_LOST" ∨
          msg0 = "UPLOAD_FINALIZATION_IN_PROGRESS"
      · rw [if_pos hl] at hres
        simp only [Except.error.injEq] at hres
        subst hres
        rcases hl with hl | hl
        · exact absurd hl h1
        · exact absurd hl h2
      · rw [if_neg hl] at hres ⊢
        simp only [Except.error.injEq] at hres
        subst hres
        exact ⟨rfl, rfl, rfl⟩

/-- A lock-ownership error passes through the `catch` block without any
write. -/
theorem finalizeCatch_lock_error (env : FinalizeEnv) (o : FinalizeOut)
    (msg : String) (hres : (finalizeCatch env o).result = .error msg)
    (hlock : msg = "UPLOAD_FINALIZATION_LOCK_LOST" ∨
      msg = "UPLOAD_FINALIZATION_IN_PROGRESS") :
    finalizeCatch env o = o := by
  obtain ⟨m, r, i⟩ := o
  cases r with
  | ok v => rw [finalizeCatch_ok]
  | error msg0 =>
      rw [finalizeCatch_error] at hres ⊢
      by_cases hl : msg0 = "UPLOAD_FINALIZATION_LOCK_LOST" ∨
          msg0 = "UPLOAD_FINALIZATION_IN_PROGRESS"
      · rw [if_pos hl]
      · rw [if_neg hl] at hres
        simp only [Except.error.injEq] at hres
        subst hres
        exact absurd hlock hl

/-! ## Claim C1 -/

/-- C1: in every run, the publish client is invoked only when the meta
record holds no `blobId` checkpoint, and every successful publish
immediately checkpoints `meta.blobId` and `meta.walrusUploadedAt`;
consequently, over any finite sequence of complete calls on the same
session, no call invokes the publish client while a checkpoint exists, and
at most one call performs a successful publish. -/
theorem C1_exactly_once_publish (s : SessionRec) (pre : Meta)
    (envs : List FinalizeEnv) :
    (∀ st ∈ finalizeSeq s pre envs,
        st.2.2.publishInvoked = true → st.1.blobId = none) ∧
    (∀ st ∈ finalizeSeq s pre envs, ∀ b : String,
        st.2.2.publishInvoked = true → st.2.1.publish = .returned b →
        b ≠ "" →
        st.2.2.meta.blobId = some b ∧
        st.2.2.meta.walrusUploadedAt = some st.2.1.now) ∧
    (finalizeSeq s pre envs).countP
        (fun st => st.2.2.publishInvoked && st.1.blobId.isSome) = 0 ∧
    (finalizeSeq s pre envs).countP stepPubSuccess ≤ 1 := by
  have h1 : ∀ st ∈ finalizeSeq s pre envs,
      st.2.2.publishInvoked = true → st.1.blobId = none := by
    intro st hst hinv
    rw [finalizeSeq_mem s envs pre st hst] at hinv
    exact finalize_invoked_no_checkpoint s st.1 st.2.1 hinv
  refine ⟨h1, ?_, ?_, finalizeSeq_success_le_one s envs pre⟩
  · intro st hst b hinv hp hb
    rw [finalizeSeq_mem s envs pre st hst] at hinv ⊢
    exact finalize_success_checkpoint s st.1 st.2.1 b hp hb hinv
  · rw [List.countP_eq_zero]
    intro st hst
    intro hcontra
    obtain ⟨hi, hs⟩ := (Bool.and_eq_true _ _).mp hcontra
    rw [h1 st hst hi] at hs
    simp at hs

/-- Witness for C1 at concrete inputs: a two-call sequence in which both
environments would let a publish succeed performs exactly one successful
publish. -/
theorem C1_exactly_once_publish_witness :
    (finalizeSeq ⟨"u", 5, 2, 3, 1, none⟩
        ⟨none, none, none, none, none, none, none, none, none, none⟩
        [⟨1, true, 3, [0, 1, 2], false, false, false, .returned "B",
            .threw "SUI_DOWN"⟩,
          ⟨2, true, 3, [0, 1, 2], false, false, false, .returned "B2",
            .returned "F"⟩]).countP stepPubSuccess ≤ 1 := by
  exact (C1_exactly_once_publish ⟨"u", 5, 2, 3, 1, none⟩
    ⟨none, none, none, none, none, none, none, none, none, none⟩
    [⟨1, true, 3, [0, 1, 2], false, false, false, .returned "B",
        .threw "SUI_DOWN"⟩,
      ⟨2, true, 3, [0, 1, 2], false, false, false, .returned "B2",
        .returned "F"⟩]).2.2.2

/-! ## Claim C3 -/

/-- C3 counterexample: a call on a session whose meta record reads
`status=completed` without a `fileId` terminates with the error
`CORRUPT_COMPLETED_UPLOAD` — which is not a lock-ownership error — yet the
meta record is left entirely unchanged: the status stays `completed`, no
`failedAt` and no error message are written.  The claim as stated demands
`status=failed` with `failedAt` and the message for every non-lock error. -/
theorem C3_counterexample :
    (finalizeUploadModel ⟨"u", 5, 2, 3, 1, none⟩
        ⟨some "completed", none, none, none, none, none, none, none, none,
          none⟩
        ⟨1, true, 3, [0, 1, 2], false, false, false, .returned "B",
          .returned "F"⟩).result = .error "CORRUPT_COMPLETED_UPLOAD" ∧
    "CORRUPT_COMPLETED_UPLOAD" ≠ "UPLOAD_FINALIZATION_LOCK_LOST" ∧
    "CORRUPT_COMPLETED_UPLOAD" ≠ "UPLOAD_FINALIZATION_IN_PROGRESS" ∧
    (finalizeUploadModel ⟨"u", 5, 2, 3, 1, none⟩
        ⟨some "completed", none, none, none, none, none, none, none, none,
          none⟩
        ⟨1, true, 3, [0, 1, 2], false, false, false, .returned "B",
          .returned "F"⟩).meta.status ≠ some "failed" ∧
    (finalizeUploadModel ⟨"u", 5, 2, 3, 1, none⟩
        ⟨some "completed", none, none, none, none, none, none, none, none,
          none⟩
        ⟨1, true, 3, [0, 1, 2], false, false, false, .returned "B",
          .returned "F"⟩).meta.failedAt = none := by
  refine ⟨rfl, by decide, by decide, by decide, rfl⟩

/-- C3 (amended): errors raised inside the locked section, other than the
two lock-ownership errors, set `meta.status=failed` with `failedAt` and the
error message before propagating; lock-ownership errors skip the failure
marking entirely (`failedAt` and the error message are untouched, and the
status either keeps its pre-call value or retains the `finalizing` value
written earlier in the run); errors raised before the lock is acquired (the
fast-path corrupt-completed check, and lock-acquisition contention) leave
the meta record entirely unchanged. -/
theorem C3_failure_marking (s : SessionRec) (pre : Meta)
    (env : FinalizeEnv) :
    (pre.status = some "completed" →
      (finalizeUploadModel s pre env).meta = pre) ∧
    (pre.status ≠ some "completed" → env.lockAcquired = false →
      (finalizeUploadModel s pre env).meta = pre ∧
      (finalizeUploadModel s pre env).result =
        .error "UPLOAD_FINALIZATION_IN_PROGRESS") ∧
    (∀ msg, pre.status ≠ some "completed" → env.lockAcquired = true →
      (finalizeUploadModel s pre env).result = .error msg →
      msg ≠ "UPLOAD_FINALIZATION_LOCK_LOST" →
      msg ≠ "UPLOAD_FINALIZATION_IN_PROGRESS" →
      (finalizeUploadModel s pre env).meta.status = some "failed" ∧
      (finalizeUploadModel s pre env).meta.failedAt = some env.now ∧
      (finalizeUploadModel s pre env).meta.errMsg = some msg) ∧
    (∀ msg, (finalizeUploadModel s pre env).result = .error msg →
      (msg = "UPLOAD_FINALIZATION_LOCK_LOST" ∨
        msg = "UPLOAD_FINALIZATION_IN_PROGRESS") →
      (finalizeUploadModel s pre env).meta.failedAt = pre.failedAt ∧
      (finalizeUploadModel s pre env).meta.errMsg = pre.errMsg ∧
      ((finalizeUploadModel s pre env).meta.status = pre.status ∨
        (finalizeUploadModel s pre env).meta.status = some "finalizing")) := by
  refine ⟨?_, ?_, ?_, ?_⟩
  · intro h1
    unfold finalizeUploadModel
    rw [if_pos h1]
    split <;> rfl
  · intro h1 h2
    unfold finalizeUploadModel
    rw [if_neg h1, if_pos (by simp [h2])]
    exact ⟨rfl, rfl⟩
  · intro msg h1 h2 hres hm1 hm2
    rw [finalizeUploadModel_eq_catch s pre env h1 h2] at hres ⊢
    exact finalizeCatch_error_marks env (finalizeBody s pre env) msg hres
      hm1 hm2
  · intro msg hres hlock
    by_cases h1 : pre.status = some "completed"
    · unfold finalizeUploadModel at hres ⊢
      rw [if_pos h1] at hres ⊢
      split at hres
      · rename_i hcorrupt
        simp only [Except.error.injEq] at hres
        subst hres
        rcases hlock with hl | hl <;> simp at hl
      · simp at hres
    · by_cases h2 : env.lockAcquired = true
      · rw [finalizeUploadModel_eq_catch s pre env h1 h2] at hres ⊢
        have hcatch := finalizeCatch_lock_error env (finalizeBody s pre env)
          msg hres hlock
        rw [hcatch] at hres ⊢
        exact finalizeBody_error_meta s pre env msg hres
      · unfold finalizeUploadModel at hres ⊢
        rw [if_neg h1, if_pos (by simp [h2])] at hres ⊢
        exact ⟨rfl, rfl, Or.inl rfl⟩

/-- Witness for the amended C3 at a concrete input: an in-lock integrity
failure (`INCOMPLETE_CHUNKS`) marks the session failed with the timestamp
and message. -/
theorem C3_failure_marking_witness :
    (finalizeUploadModel ⟨"u", 5, 2, 3, 1, none⟩
        ⟨some "uploading", none, none, none, none, none, none, none, none,
          none⟩
        ⟨7, true, 2, [0, 1], false, false, false, .returned "B",
          .returned "F"⟩).meta.status = some "failed" ∧
    (finalizeUploadModel ⟨"u", 5, 2, 3, 1, none⟩
        ⟨some "uploading", none, none, none, none, none, none, none, none,
          none⟩
        ⟨7, true, 2, [0, 1], false, false, false, .returned "B",
          .returned "F"⟩).meta.failedAt = some 7 ∧
    (finalizeUploadModel ⟨"u", 5, 2, 3, 1, none⟩
        ⟨some "uploading", none, none, none, none, none, none, none, none,
          none⟩
        ⟨7, true, 2, [0, 1], false, false, false, .returned "B",
          .returned "F"⟩).meta.errMsg = some "INCOMPLETE_CHUNKS" := by
  exact (C3_failure_marking ⟨"u", 5, 2, 3, 1, none⟩
    ⟨some "uploading", none, none, none, none, none, none, none, none,
      none⟩
    ⟨7, true, 2, [0, 1], false, false, false, .returned "B",
      .returned "F"⟩).2.2.1 "INCOMPLETE_CHUNKS" (by decide) rfl rfl
    (by decide) (by decide)

/-! ## Claim C2 -/

/-- C2 counterexample: an upload whose `.bin` file is old (mtime 0) but
whose chunk directory was touched one millisecond before the run
(mtime `GRACE_MS − 1`, `now = GRACE_MS`) has its chunk directory deleted,
although the grace period has not elapsed since that artifact's own mtime:
the reaper ages the upload by the `.bin` mtime alone when `.bin` exists. -/
theorem C2_counterexample :
    (gcStep GRACE_MS GRACE_MS
        ⟨some "failed", none, false, true, false, some 0,
          some (GRACE_MS - 1), true⟩).2.deletedDir = true ∧
    GRACE_MS - (GRACE_MS - 1) < GRACE_MS := by
  exact ⟨rfl, by decide⟩

/-- C2 (amended): in every reaper run, for every upload id in the GC
index, no disk artifact is deleted while the finalize lock key exists, none
unless the status (after the expiry inference) is one of failed, expired,
canceled, and none before the grace period has elapsed since the upload's
reference mtime — the `.bin` file's mtime when `.bin` exists, else the
chunk directory's mtime (so a chunk directory fresher than an old `.bin`
can be deleted early); the `.bin` file itself is never deleted before the
grace period has elapsed since its own mtime. -/
theorem C2_gc_safety (now grace : Nat) (entries : List (String × GcUp)) :
    ∀ e ∈ entries,
      (e.1, gcStep now grace e.2) ∈ runUploadGc now grace entries ∧
      (((gcStep now grace e.2).2.deletedDir = true ∨
          (gcStep now grace e.2).2.deletedBin = true) →
        e.2.hasLock = false ∧
        gcEligible (gcInferredUp now e.2).metaStatus = true ∧
        grace ≤ now - referenceMtime e.2 ∧
        ((gcStep now grace e.2).2.deletedBin = true →
          ∃ t, e.2.bin = some t ∧ grace ≤ now - t)) := by
  intro e he
  obtain ⟨id, u⟩ := e
  refine ⟨?_, ?_⟩
  · unfold runUploadGc
    exact List.mem_map_of_mem _ he
  · intro hdel
    by_cases hl : u.hasLock = true
    · have heq : gcStep now grace u = (u, noGcActions) := by
        unfold gcStep
        rw [if_pos hl]
      rw [heq] at hdel
      rcases hdel with hd | hd <;> simp [noGcActions] at hd
    · by_cases he1 : ¬ gcEligible (gcInferredUp now u).metaStatus = true
      · have heq : gcStep now grace u = (gcInferredUp now u, noGcActions) := by
          unfold gcStep
          rw [if_neg hl, if_pos he1]
        rw [heq] at hdel
        rcases hdel with hd | hd <;> simp [noGcActions] at hd
      · by_cases hnn : u.bin = none ∧ u.dir = none
        · have heq : gcStep now grace u =
              ({ gcInferredUp now u with
                  metaStatus := none,
                  metaExpiredAt := none,
                  hasChunksKey := false,
                  hasSession := false,
                  inGcIndex := false }, noGcActions) := by
            unfold gcStep
            rw [if_neg hl, if_neg he1, if_pos hnn]
          rw [heq] at hdel
          rcases hdel with hd | hd <;> simp [noGcActions] at hd
        · by_cases hg : now - referenceMtime u < grace
          · have heq : gcStep now grace u =
                (gcInferredUp now u, noGcActions) := by
              unfold gcStep
              rw [if_neg hl, if_neg he1, if_neg hnn, if_pos hg]
            rw [heq] at hdel
            rcases hdel with hd | hd <;> simp [noGcActions] at hd
          · have heq : gcStep now grace u =
                ({ gcInferredUp now u with
                    metaStatus := none,
                    metaExpiredAt := none,
                    hasChunksKey := false,
                    hasSession := false,
                    inGcIndex := false,
                    bin := none,
                    dir := none },
                 { deletedDir := u.dir.isSome,
                   deletedBin := u.bin.isSome }) := by
              unfold gcStep
              rw [if_neg hl, if_neg he1, if_neg hnn, if_neg hg]
            rw [heq]
            refine ⟨by simpa using hl, by simpa using he1,
              by show grace ≤ now - referenceMtime u; omega, ?_⟩
            intro hbin
            have hb : u.bin.isSome = true := hbin
            obtain ⟨t, ht⟩ := Option.isSome_iff_exists.mp hb
            have hr : referenceMtime u = t := by
              simp [referenceMtime, ht]
            exact ⟨t, ht, by omega⟩

/-- Witness for the amended C2 at a concrete input: a failed upload with an
old `.bin` (mtime 0) collected at `now = GRACE_MS` satisfies the grace
bound for the reference mtime. -/
theorem C2_gc_safety_witness :
    GRACE_MS ≤ GRACE_MS - referenceMtime
      ⟨some "failed", none, false, true, false, some 0, none, true⟩ := by
  exact ((C2_gc_safety GRACE_MS GRACE_MS
    [("u", ⟨some "failed", none, false, true, false, some 0, none, true⟩)]
    ("u", ⟨some "failed", none, false, true, false, some 0, none, true⟩)
    (by simp)).2 (Or.inr rfl)).2.2.1

/-! ## Claim C10 -/

/-- C10: an upload id in the GC index whose meta hash holds no status field
and whose session key is absent is skipped by the reaper: a run leaves its
disk artifacts, KV keys, and GC-index membership all unchanged, and it
stays uncollected over any sequence of subsequent runs while that state
persists. -/
theorem C10_statusless_entry_never_collected (grace : Nat) (u : GcUp)
    (hstatus : u.metaStatus = none) (hsession : u.hasSession = false) :
    (∀ now, gcStep now grace u = (u, noGcActions)) ∧
    (∀ nows : List Nat, gcRuns grace nows u = u) := by
  have hinf : ∀ now, gcInferredUp now u = u := by
    intro now
    unfold gcInferredUp
    rw [if_neg (by simp [hstatus])]
  have hstep : ∀ now, gcStep now grace u = (u, noGcActions) := by
    intro now
    unfold gcStep
    by_cases hl : u.hasLock = true
    · rw [if_pos hl]
    · rw [if_neg hl,
        if_pos (by rw [hinf now]; simp [gcEligible, hstatus]), hinf now]
  refine ⟨hstep, ?_⟩
  intro nows
  induction nows with
  | nil => rfl
  | cons n ns ih =>
      unfold gcRuns
      rw [hstep n]
      exact ih

/-- Witness for C10 at a concrete input: three consecutive runs leave the
statusless, sessionless entry untouched. -/
theorem C10_statusless_entry_never_collected_witness :
    gcRuns GRACE_MS [0, GRACE_MS, 2 * GRACE_MS]
      ⟨none, none, false, true, false, some 0, some 0, true⟩ =
    ⟨none, none, false, true, false, some 0, some 0, true⟩ := by
  exact (C10_statusless_entry_never_collected GRACE_MS
    ⟨none, none, false, true, false, some 0, some 0, true⟩ rfl rfl).2
    [0, GRACE_MS, 2 * GRACE_MS]

/-! ## Range parsing lemmas -/

end Floe
